import Mathlib

/-!
Verification of the ECIES core in `ext/ies/ecies.c` (encrypt/decrypt
orchestration, KDF2 key stretching, envelope-key derivation, MAC stage).

The OpenSSL primitives the file calls (digests, HMAC, the EVP block cipher,
EC group arithmetic and point codecs, `malloc`) are external collaborators;
they are modelled as function fields of small structures, and the contracts
the spec assigns to them appear as hypotheses of the theorems.  Bytes are
`Nat`s in lists; fallible calls return `Option` or are driven by explicit
success flags (`EncEnv` / `DecEnv`), one flag per fallible external call, so
every error path of the C code is a reachable branch of the model.  Each
encrypt/decrypt run additionally produces a trace of resource and ordering
events (`Ev`) mirroring the C calls to `malloc`/`free`/`OPENSSL_cleanse`,
`ECDH_compute_key`, MAC verification and body decryption, which makes the
ordering and zeroization properties statable.
-/

namespace ECIES

/-- Events recorded along an encrypt/decrypt run, one per relevant call in
`ecies.c`: allocation, zeroization (`OPENSSL_cleanse`) and release of the two
secret buffers (`envelope_key`, `ktmp`), cryptogram allocation/release, the
`ECDH_compute_key` call, the MAC comparison (with its outcome) and the body
decryption. -/
inductive Ev where
  | allocEnvKey
  | cleanseEnvKey
  | freeEnvKey
  | allocKtmp
  | cleanseKtmp
  | freeKtmp
  | allocCryptogram
  | freeCryptogram
  | keyAgreement
  | macVerify : Bool → Ev
  | decryptBody
  deriving DecidableEq

/-- True unless the event is a body decryption or a MAC verification. -/
def notVerifyOrDecrypt : Ev → Bool
  | Ev.decryptBody => false
  | Ev.macVerify _ => false
  | _ => true

/-- True unless the event is a zeroization of the envelope key. -/
def notCleanseEnvKey : Ev → Bool
  | Ev.cleanseEnvKey => false
  | _ => true

/-- True unless the event is a release of the envelope key. -/
def notFreeEnvKey : Ev → Bool
  | Ev.freeEnvKey => false
  | _ => true

/-- Scanning the trace front to back: `true` iff no `decryptBody` event occurs
before the first successful MAC verification. -/
def noBodyDecryptBeforeVerify : List Ev → Bool
  | [] => true
  | e :: t =>
    if e = Ev.decryptBody then false
    else if e = Ev.macVerify true then true
    else noBodyDecryptBeforeVerify t

/-- The `ECDH_KDF_MAX` bound of `ecies.c` line 25: `1 << 30`. -/
def ECDH_KDF_MAX : Nat := 2 ^ 30

/-- `EVP_MAX_BLOCK_LENGTH` of OpenSSL: 32. -/
def EVP_MAX_BLOCK_LENGTH : Nat := 32

/-- The four counter bytes of `ECDH_KDF_X9_62` (ecies.c lines 44-47):
the 32-bit counter `i` in big-endian byte order. -/
def ctrBytes (i : Nat) : List Nat :=
  [i / 2 ^ 24 % 256, i / 2 ^ 16 % 256, i / 2 ^ 8 % 256, i % 256]

/-- The digest loop of `ECDH_KDF_X9_62` (ecies.c lines 40-71).  Arguments after
the digest and its output size `mdlen`: the fuel, the remaining `outlen`, and
the counter `i`.  Each iteration digests `Z ‖ ctr(i) ‖ sinfo`; a full digest is
appended while at least `mdlen` bytes remain, the final digest is truncated.
The fuel only bounds the iteration count: with `0 < mdlen` a fuel of
`outlen + 1` is never exhausted (with `mdlen = 0` the C loop never
terminates). -/
def kdfLoop (digest : List Nat → List Nat) (mdlen : Nat) (Z sinfo : List Nat) :
    Nat → Nat → Nat → List Nat
  | 0, _, _ => []
  | fuel + 1, outlen, i =>
    let mtmp := digest (Z ++ ctrBytes i ++ sinfo)
    if mdlen ≤ outlen then
      if outlen - mdlen = 0 then mtmp
      else mtmp ++ kdfLoop digest mdlen Z sinfo fuel (outlen - mdlen) (i + 1)
    else
      mtmp.take outlen

/-- `ECDH_KDF_X9_62` (ecies.c lines 26-76).  The C signature passes buffers
with lengths; here `Z` and `sinfo` carry their lengths and the digest is an
abstract function together with its output size `mdlen`.  Oversized inputs are
rejected exactly as in lines 36-37; `none` is the `rv = 0` return. -/
def ECDH_KDF_X9_62 (digest : List Nat → List Nat) (mdlen : Nat)
    (Z sinfo : List Nat) (outlen : Nat) : Option (List Nat) :=
  if sinfo.length > ECDH_KDF_MAX ∨ outlen > ECDH_KDF_MAX ∨ Z.length > ECDH_KDF_MAX then
    none
  else
    some (kdfLoop digest mdlen Z sinfo (outlen + 1) outlen 1)

/-- Modelled from the spec's words (section 4.1), for comparison with
`ECDH_KDF_X9_62`: the i-th key block is `digest(secret ‖ counter ‖ shared_info)`
with the 32-bit big-endian counter starting at `i`. -/
def kdfSpecBlocks (digest : List Nat → List Nat) (Z sinfo : List Nat) :
    Nat → Nat → List Nat
  | _, 0 => []
  | i, n + 1 => digest (Z ++ ctrBytes i ++ sinfo) ++ kdfSpecBlocks digest Z sinfo (i + 1) n

/-- Modelled from the spec's words (section 4.1): concatenate
`⌈outlen / mdlen⌉` blocks, counter starting at 1 and incremented once per
block, and truncate to exactly `outlen` bytes. -/
def kdfSpecOutput (digest : List Nat → List Nat) (mdlen : Nat)
    (Z sinfo : List Nat) (outlen : Nat) : List Nat :=
  (kdfSpecBlocks digest Z sinfo 1 ((outlen + mdlen - 1) / mdlen)).take outlen

/-- The byte-by-byte comparison done by the usual C `memcmp` over two buffers
of equal length: `true` iff the result is nonzero (some byte differs). -/
def memcmpNe : List Nat → List Nat → Bool
  | x :: xs, y :: ys => if x = y then memcmpNe xs ys else true
  | _, _ => false

/-- Number of byte comparisons the usual early-exit `memcmp` implementation
performs: it stops at the first differing byte, so the count is one more than
the length of the matching prefix (capped at the buffer length). -/
def memcmpSteps : List Nat → List Nat → Nat
  | x :: xs, y :: ys => if x = y then 1 + memcmpSteps xs ys else 1
  | _, _ => 0

/-- The EVP cipher of the context (`ctx->cipher`), an external collaborator.
`encUpdate key data` is what `EVP_EncryptUpdate` emits on the whole plaintext,
`encFinal key data` what `EVP_EncryptFinal_ex` then emits (the padding block);
`decUpdate` / `decFinal` are the decrypt counterparts, `decFinal` failing
(`none`) on a padding error.  The key argument is the slice of the envelope
key the EVP init call reads. -/
structure CipherModel where
  blockSize : Nat
  keyLength : Nat
  encUpdate : List Nat → List Nat → List Nat
  encFinal : List Nat → List Nat → List Nat
  decUpdate : List Nat → List Nat → List Nat
  decFinal : List Nat → List Nat → Option (List Nat)

/-- The EC group operations used by `ecies.c`, external collaborators:
scalar multiplication and the generator (so a key pair is `(d, smul d gen)`),
`xcoord` for the bytes `ECDH_compute_key` derives from a shared point,
`pointEnc` for `EC_POINT_point2oct` (compressed form) and `pointDec` for
`EC_POINT_oct2point` followed by `EC_KEY_check_key` (`none` on a malformed or
invalid point). -/
structure GroupModel (P : Type) where
  smul : Nat → P → P
  gen : P
  xcoord : P → List Nat
  pointEnc : P → List Nat
  pointDec : List Nat → Option P

/-- The `ies_ctx_t` context.  The C context stores the recipient `EC_KEY`
(`user_key`, private scalar plus public point), the cipher, the MAC digest
`md` (entering only through HMAC, modelled as the keyed function `hmac` with
output size `mdSize = EVP_MD_size(ctx->md)`), the KDF digest `kdf_md`
(function `kdfDigest` with output size `kdfMdLen`), and the stored sizes
`KDF_digest_length` and `envelope_key_length`; `groupDegree` is
`EC_GROUP_get_degree` of the recipient group. -/
structure Ctx (P : Type) where
  grp : GroupModel P
  userPriv : Nat
  userPub : P
  cipher : CipherModel
  hmac : List Nat → List Nat → List Nat
  mdSize : Nat
  kdfDigest : List Nat → List Nat
  kdfMdLen : Nat
  KDF_digest_length : Nat
  envelope_key_length : Nat
  groupDegree : Nat

/-- The `cryptogram_t` container: three contiguous fields whose lengths are
fixed at allocation (`cryptogram_key_length`, `cryptogram_body_length` and
`cryptogram_mac_length` are the `List.length`s of the fields). -/
structure Cryptogram where
  keyField : List Nat
  body : List Nat
  mac : List Nat
  deriving DecidableEq

/-- Success flags for the fallible external calls of the encrypt path, one
per call site: `malloc` for the envelope key, `ecies_key_create`, the
`OPENSSL_malloc` for `ktmp`, `cryptogram_alloc`, the
`EVP_EncryptInit_ex`/`EVP_EncryptUpdate` pair, `EVP_EncryptFinal_ex`, and the
HMAC calls of `store_mac_tag`. -/
structure EncEnv where
  envKeyMallocOk : Bool
  ephemeralOk : Bool
  ktmpMallocOk : Bool
  cryptogramAllocOk : Bool
  encInitOk : Bool
  encFinalOk : Bool
  hmacOk : Bool
  deriving DecidableEq

/-- Success flags for the fallible external calls of the decrypt path: the
`length`/`error` out-pointers being non-null, `malloc` for the envelope key,
`EC_KEY_new`/`EC_KEY_copy` for the user-key copy, `OPENSSL_malloc` for
`ktmp`, the HMAC calls of `verify_mac`, `malloc` for the plaintext buffer and
the `EVP_DecryptInit_ex`/`EVP_DecryptUpdate` pair. -/
structure DecEnv where
  ptrsOk : Bool
  envKeyMallocOk : Bool
  userCopyOk : Bool
  ktmpMallocOk : Bool
  hmacOk : Bool
  outputMallocOk : Bool
  decInitOk : Bool
  deriving DecidableEq

/-- All external calls succeed (the happy path). -/
def allOkEncEnv : EncEnv :=
  ⟨true, true, true, true, true, true, true⟩

/-- All external calls succeed (the happy path). -/
def allOkDecEnv : DecEnv :=
  ⟨true, true, true, true, true, true, true⟩

/-- `prepare_envelope_key` (ecies.c lines 109-187).  Returns the envelope key
and the cryptogram with the serialized ephemeral public key written into its
key field, plus the event trace.  `ephPriv` is the scalar
`EC_KEY_generate_key` draws for the ephemeral key.  Branches, in source
order: `malloc` for the envelope key (line 121), `ecies_key_create`
(line 126), `OPENSSL_malloc` for `ktmp` (line 132), `ECDH_compute_key` with
the recipient public key and the ephemeral private key returning
`ecdh_key_len` bytes (line 138), `ECDH_KDF_X9_62` (line 145),
`EC_POINT_point2oct` of the ephemeral public key (line 151) with its two
length checks (lines 158, 164).  The `goto err` label frees the envelope key
without cleansing it and cleanses then frees `ktmp`; the two point2oct
failure paths (lines 158-169) free the envelope key and return directly,
neither cleansing nor freeing `ktmp`. -/
def prepare_envelope_key {P : Type} (ctx : Ctx P) (env : EncEnv) (ephPriv : Nat)
    (cryptogram : Cryptogram) : Option (List Nat × Cryptogram) × List Ev :=
  let key_buf_len := ctx.KDF_digest_length
  let ecdh_key_len := (ctx.groupDegree + 7) / 8
  if env.envKeyMallocOk = false then
    (none, [])
  else if env.ephemeralOk = false then
    (none, [Ev.allocEnvKey, Ev.freeEnvKey])
  else
    let ephPub := ctx.grp.smul ephPriv ctx.grp.gen
    if env.ktmpMallocOk = false then
      (none, [Ev.allocEnvKey, Ev.freeEnvKey])
    else
      let ktmp := ctx.grp.xcoord (ctx.grp.smul ephPriv ctx.userPub)
      if ktmp.length ≠ ecdh_key_len then
        (none, [Ev.allocEnvKey, Ev.allocKtmp, Ev.keyAgreement, Ev.freeEnvKey,
                Ev.cleanseKtmp, Ev.freeKtmp])
      else
        match ECDH_KDF_X9_62 ctx.kdfDigest ctx.kdfMdLen ktmp [] key_buf_len with
        | none =>
          (none, [Ev.allocEnvKey, Ev.allocKtmp, Ev.keyAgreement, Ev.freeEnvKey,
                  Ev.cleanseKtmp, Ev.freeKtmp])
        | some envelope_key =>
          let written_length := (ctx.grp.pointEnc ephPub).length
          if written_length = 0 then
            (none, [Ev.allocEnvKey, Ev.allocKtmp, Ev.keyAgreement, Ev.freeEnvKey])
          else if written_length ≠ ctx.envelope_key_length then
            (none, [Ev.allocEnvKey, Ev.allocKtmp, Ev.keyAgreement, Ev.freeEnvKey])
          else
            (some (envelope_key, { cryptogram with keyField := ctx.grp.pointEnc ephPub }),
             [Ev.allocEnvKey, Ev.allocKtmp, Ev.keyAgreement, Ev.cleanseKtmp, Ev.freeKtmp])

/-- Content of the body field after the cipher writes: the bytes of
`u ++ f` that land inside the field's `cap` bytes, the rest of the field
keeping its zero fill (writes beyond `cap` land past the field and are
tracked by `writeEnd`, not here). -/
def bodyFill (u f : List Nat) (cap : Nat) : List Nat :=
  ((u ++ f).take cap) ++ List.replicate (cap - (u ++ f).length) 0

/-- Result of `store_cipher_body`: the C return value, the body field
content, the highest byte offset one past the data the cipher wrote into the
body pointer, and the events of the call (line 227 frees the cryptogram). -/
structure CipherBodyOut where
  ok : Bool
  body : List Nat
  writeEnd : Nat
  trace : List Ev
  deriving DecidableEq

/-- `store_cipher_body` (ecies.c lines 189-239).  `cap` is
`cryptogram_body_length(cryptogram)`.  `EVP_EncryptInit_ex` reads
`keyLength` bytes from the envelope key; the IV is all zeros and is part of
the cipher model's key-use convention.  In source order:
`EVP_EncryptUpdate` writes its output at offset 0 and only then is
`expected_len < out_len` checked (line 216); `EVP_EncryptFinal_ex` writes at
offset `out_len` (line 224, freeing the cryptogram on failure, line 227);
the second check (line 233) compares against `len_sum`, to which the final
block's length was never added. -/
def store_cipher_body (cm : CipherModel) (env : EncEnv)
    (envelope_key data : List Nat) (cap : Nat) : CipherBodyOut :=
  let key := envelope_key.take cm.keyLength
  if env.encInitOk = false then
    { ok := false, body := List.replicate cap 0, writeEnd := 0, trace := [] }
  else
    let u := cm.encUpdate key data
    if cap < u.length then
      { ok := false, body := bodyFill u [] cap, writeEnd := u.length, trace := [] }
    else if env.encFinalOk = false then
      { ok := false, body := bodyFill u [] cap, writeEnd := u.length,
        trace := [Ev.freeCryptogram] }
    else
      let f := cm.encFinal key data
      let len_sum := u.length
      if cap < len_sum then
        { ok := false, body := bodyFill u f cap, writeEnd := u.length + f.length,
          trace := [] }
      else
        { ok := true, body := bodyFill u f cap, writeEnd := u.length + f.length,
          trace := [] }

/-- `store_mac_tag` (ecies.c lines 241-266).  The HMAC key is
`envelope_key + key_length` for `key_length` bytes where
`key_length = EVP_CIPHER_key_length(ctx->cipher)`; the tag is computed over
the body field and written into the mac field, then its length is checked
against `cryptogram_mac_length`. -/
def store_mac_tag {P : Type} (ctx : Ctx P) (env : EncEnv)
    (envelope_key : List Nat) (cryptogram : Cryptogram) : Option Cryptogram :=
  let key_length := ctx.cipher.keyLength
  let mac_length := cryptogram.mac.length
  if env.hmacOk = false then
    none
  else
    let tag := ctx.hmac ((envelope_key.drop key_length).take key_length) cryptogram.body
    if tag.length ≠ mac_length then none
    else some { cryptogram with mac := tag }

/-- `ecies_encrypt` can end three ways: `ub` marks the null-context call
(lines 270-272 read `ctx->cipher` and `ctx->md` before the null test of
line 276, so no NULL return is reached), `fail` is the NULL-with-error
return, `ok` carries the cryptogram. -/
inductive EncResult where
  | ub : EncResult
  | fail : EncResult
  | ok : Cryptogram → EncResult
  deriving DecidableEq

/-- `ecies_encrypt` (ecies.c lines 268-318).  In source order: the
initializers dereference `ctx` (hence `ub` on a null context), the argument
checks of line 276, the block-size check of line 281, the key-material check
of line 287, `cryptogram_alloc` with body capacity = plaintext length rounded
up to the block size (line 292), `prepare_envelope_key`, `store_cipher_body`,
`store_mac_tag`; each failure after allocation frees the cryptogram and, once
obtained, the envelope key (without cleansing); on success the envelope key
is neither cleansed nor freed. -/
def ecies_encrypt {P : Type} (octx : Option (Ctx P)) (env : EncEnv)
    (ephPriv : Nat) (odata : Option (List Nat)) : EncResult × List Ev :=
  match octx with
  | none => (EncResult.ub, [])
  | some ctx =>
    let block_length := ctx.cipher.blockSize
    let key_length := ctx.cipher.keyLength
    let mac_length := ctx.mdSize
    match odata with
    | none => (EncResult.fail, [])
    | some data =>
      if data.length = 0 then (EncResult.fail, [])
      else if block_length = 0 ∨ block_length > EVP_MAX_BLOCK_LENGTH then
        (EncResult.fail, [])
      else if key_length * 2 > ctx.KDF_digest_length then
        (EncResult.fail, [])
      else if env.cryptogramAllocOk = false then
        (EncResult.fail, [])
      else
        let bodyCap := data.length +
          (if data.length % block_length ≠ 0 then block_length - data.length % block_length else 0)
        let cg0 : Cryptogram :=
          { keyField := List.replicate ctx.envelope_key_length 0,
            body := List.replicate bodyCap 0,
            mac := List.replicate mac_length 0 }
        match prepare_envelope_key ctx env ephPriv cg0 with
        | (none, t) => (EncResult.fail, Ev.allocCryptogram :: t ++ [Ev.freeCryptogram])
        | (some (envelope_key, cg1), t) =>
          let sb := store_cipher_body ctx.cipher env envelope_key data cg1.body.length
          if sb.ok = false then
            (EncResult.fail,
             Ev.allocCryptogram :: t ++ sb.trace ++ [Ev.freeCryptogram, Ev.freeEnvKey])
          else
            let cg2 := { cg1 with body := sb.body }
            match store_mac_tag ctx env envelope_key cg2 with
            | none =>
              (EncResult.fail, Ev.allocCryptogram :: t ++ [Ev.freeCryptogram, Ev.freeEnvKey])
            | some cg3 =>
              (EncResult.ok cg3, Ev.allocCryptogram :: t)

/-- `restore_envelope_key` (ecies.c lines 373-439).  In source order:
`malloc` for the envelope key (line 381), `EC_KEY_new`/`EC_KEY_copy` for the
user-key copy (lines 386-394), `ecies_key_create_public_octets` rebuilding
and validating the ephemeral public point from the cryptogram's key field
(line 396, modelled by `pointDec`), `OPENSSL_malloc` for `ktmp` (line 402),
`ECDH_compute_key` with the ephemeral public key and the recipient private
key (line 408), `ECDH_KDF_X9_62` (line 415).  The `err` label frees the
envelope key without cleansing it and cleanses then frees `ktmp`. -/
def restore_envelope_key {P : Type} (ctx : Ctx P) (env : DecEnv)
    (cryptogram : Cryptogram) : Option (List Nat) × List Ev :=
  let key_buf_len := ctx.KDF_digest_length
  let ecdh_key_len := (ctx.groupDegree + 7) / 8
  if env.envKeyMallocOk = false then
    (none, [])
  else if env.userCopyOk = false then
    (none, [Ev.allocEnvKey, Ev.freeEnvKey])
  else
    match ctx.grp.pointDec cryptogram.keyField with
    | none => (none, [Ev.allocEnvKey, Ev.freeEnvKey])
    | some ephPub =>
      if env.ktmpMallocOk = false then
        (none, [Ev.allocEnvKey, Ev.freeEnvKey])
      else
        let ktmp := ctx.grp.xcoord (ctx.grp.smul ctx.userPriv ephPub)
        if ktmp.length ≠ ecdh_key_len then
          (none, [Ev.allocEnvKey, Ev.allocKtmp, Ev.keyAgreement, Ev.freeEnvKey,
                  Ev.cleanseKtmp, Ev.freeKtmp])
        else
          match ECDH_KDF_X9_62 ctx.kdfDigest ctx.kdfMdLen ktmp [] key_buf_len with
          | none =>
            (none, [Ev.allocEnvKey, Ev.allocKtmp, Ev.keyAgreement, Ev.freeEnvKey,
                    Ev.cleanseKtmp, Ev.freeKtmp])
          | some envelope_key =>
            (some envelope_key,
             [Ev.allocEnvKey, Ev.allocKtmp, Ev.keyAgreement, Ev.cleanseKtmp, Ev.freeKtmp])

/-- `verify_mac` (ecies.c lines 441-473).  Recomputes the HMAC over the body
field, keyed exactly as in `store_mac_tag` (`envelope_key + key_length`,
`key_length` bytes), checks its length against `cryptogram_mac_length`, and
compares `mac_length` bytes with `memcmp` (line 467). -/
def verify_mac {P : Type} (ctx : Ctx P) (env : DecEnv) (cryptogram : Cryptogram)
    (envelope_key : List Nat) : Bool :=
  let key_length := ctx.cipher.keyLength
  let mac_length := cryptogram.mac.length
  if env.hmacOk = false then
    false
  else
    let md := ctx.hmac ((envelope_key.drop key_length).take key_length) cryptogram.body
    if md.length ≠ mac_length then false
    else if memcmpNe (md.take mac_length) (cryptogram.mac.take mac_length) then false
    else true

/-- `decrypt_body` (ecies.c lines 475-518): allocate the plaintext buffer,
run `EVP_DecryptInit_ex`/`EVP_DecryptUpdate` over the body field, then
`EVP_DecryptFinal_ex` (failing on a padding error); returns the plaintext
bytes and the written length `*length`. -/
def decrypt_body {P : Type} (ctx : Ctx P) (env : DecEnv) (cryptogram : Cryptogram)
    (envelope_key : List Nat) : Option (List Nat × Nat) :=
  if env.outputMallocOk = false then
    none
  else
    let key := envelope_key.take ctx.cipher.keyLength
    if env.decInitOk = false then
      none
    else
      let u := ctx.cipher.decUpdate key cryptogram.body
      match ctx.cipher.decFinal key cryptogram.body with
      | none => none
      | some f => some (u ++ f, u.length + f.length)

/-- Result of `ecies_decrypt`: the plaintext bytes together with the length
written through the `length` out-pointer, or the NULL return. -/
inductive DecResult where
  | fail : DecResult
  | ok : List Nat → Nat → DecResult
  deriving DecidableEq

/-- `ecies_decrypt` (ecies.c lines 520-554).  In source order: the null
checks of line 525 (here the `length`/`error` pointers are the `ptrsOk`
flag), the key-material check of line 531, `restore_envelope_key`,
`verify_mac` (freeing the envelope key, uncleansed, on mismatch),
`decrypt_body`, and the final free of the envelope key (again without
cleansing) on both remaining paths. -/
def ecies_decrypt {P : Type} (octx : Option (Ctx P)) (env : DecEnv)
    (ocryptogram : Option Cryptogram) : DecResult × List Ev :=
  match octx, ocryptogram with
  | none, _ => (DecResult.fail, [])
  | some _, none => (DecResult.fail, [])
  | some ctx, some cryptogram =>
    if env.ptrsOk = false then (DecResult.fail, [])
    else if ctx.cipher.keyLength * 2 > ctx.KDF_digest_length then
      (DecResult.fail, [])
    else
      match restore_envelope_key ctx env cryptogram with
      | (none, t) => (DecResult.fail, t)
      | (some envelope_key, t) =>
        if verify_mac ctx env cryptogram envelope_key = false then
          (DecResult.fail, t ++ [Ev.macVerify false, Ev.freeEnvKey])
        else
          match decrypt_body ctx env cryptogram envelope_key with
          | none => (DecResult.fail, t ++ [Ev.macVerify true, Ev.decryptBody, Ev.freeEnvKey])
          | some (output, len) =>
            (DecResult.ok output len, t ++ [Ev.macVerify true, Ev.decryptBody, Ev.freeEnvKey])

/-- Encrypt, then decrypt the produced cryptogram with the same context. -/
def roundTrip {P : Type} (ctx : Ctx P) (eenv : EncEnv) (denv : DecEnv)
    (ephPriv : Nat) (data : List Nat) : DecResult :=
  match (ecies_encrypt (some ctx) eenv ephPriv (some data)).1 with
  | EncResult.ok cg => (ecies_decrypt (some ctx) denv (some cg)).1
  | _ => DecResult.fail

/-! Concrete instances of the collaborator models, used to evaluate the code
model on explicit inputs.  They satisfy the collaborator contracts the spec
states (valid key pairs, a point codec that round-trips, digests of fixed
output size, an EVP-style padding block cipher and an EVP-style stream
cipher), with tiny parameters so that runs evaluate by `decide`. -/

/-- A degenerate commutative group on `Nat`: `smul a p = a * p`, generator 1.
The point codec is the identity on the one-element list. -/
def toyGroup : GroupModel Nat :=
  { smul := fun a p => a * p,
    gen := 1,
    xcoord := fun p => [p % 256],
    pointEnc := fun p => [p],
    pointDec := fun l => match l with | [p] => some p | _ => none }

/-- A digest with 2-byte output. -/
def toyDigest (l : List Nat) : List Nat :=
  [l.sum % 256, (l.sum * 7 + 3) % 256]

/-- A keyed hash with 1-byte output. -/
def toyHmac (key data : List Nat) : List Nat :=
  [(key.sum * 2 + data.sum + 1) % 256]

/-- A keyed hash with 2-byte output. -/
def toyHmac2 (key data : List Nat) : List Nat :=
  [(key.sum + data.sum) % 256, (key.sum + 3 * data.sum + 7) % 256]

/-- An EVP stream cipher (block size 1, no padding, the null transform):
update emits everything, final emits nothing and always succeeds. -/
def nullCipher : CipherModel :=
  { blockSize := 1,
    keyLength := 0,
    encUpdate := fun _ d => d,
    encFinal := fun _ _ => [],
    decUpdate := fun _ c => c,
    decFinal := fun _ _ => some [] }

/-- Byte encryption of the toy padding cipher: add the key sum mod 256. -/
def shiftEnc (key : List Nat) (b : Nat) : Nat := (b + key.sum) % 256

/-- Byte decryption of the toy padding cipher. -/
def shiftDec (key : List Nat) (b : Nat) : Nat := (b + 256 - key.sum % 256) % 256

/-- An EVP padding block cipher with block size 2 and PKCS#7-style padding:
update emits the complete input blocks, final emits the padded last block,
decrypt-update withholds the last block, decrypt-final unpads it and fails on
an invalid padding byte — the standard EVP behaviour with padding enabled. -/
def padCipher2 : CipherModel :=
  { blockSize := 2,
    keyLength := 1,
    encUpdate := fun k d => (d.take (d.length / 2 * 2)).map (shiftEnc k),
    encFinal := fun k d =>
      ((d.drop (d.length / 2 * 2)) ++ List.replicate (2 - d.length % 2) (2 - d.length % 2)).map (shiftEnc k),
    decUpdate := fun k c => (c.take (c.length - 2)).map (shiftDec k),
    decFinal := fun k c =>
      let lb := (c.drop (c.length - 2)).map (shiftDec k)
      match lb.getLast? with
      | none => none
      | some p => if 1 ≤ p ∧ p ≤ 2 ∧ (lb.drop (2 - p)).all (fun x => x = p) then
                    some (lb.take (2 - p))
                  else none }

/-- A context over the toy group with the stream cipher: recipient key pair
(3, 3·1), 2-byte KDF digest, `KDF_digest_length = 2`, compressed points of
length 1 on a degree-8 group. -/
def toyCtx : Ctx Nat :=
  { grp := toyGroup,
    userPriv := 3,
    userPub := 3,
    cipher := nullCipher,
    hmac := toyHmac,
    mdSize := 1,
    kdfDigest := toyDigest,
    kdfMdLen := 2,
    KDF_digest_length := 2,
    envelope_key_length := 1,
    groupDegree := 8 }

/-- The toy context with the padding block cipher. -/
def padCtx : Ctx Nat :=
  { toyCtx with cipher := padCipher2 }

/-- The toy context with the padding block cipher and a 2-byte MAC. -/
def timingCtx : Ctx Nat :=
  { toyCtx with cipher := padCipher2, hmac := toyHmac2, mdSize := 2 }

/-- A context violating the KDF-sufficiency invariant:
`cipher_key_length * 2 = 4 > 1 = KDF_digest_length`. -/
def badKdfCtx : Ctx Nat :=
  { toyCtx with cipher := { nullCipher with keyLength := 2 }, KDF_digest_length := 1 }

/-- A cryptogram for `padCtx` whose mac field does not match its body. -/
def cgBad : Cryptogram :=
  { keyField := [5], body := [1], mac := [99] }

/-- The cryptogram `ecies_encrypt` produces for `padCtx`, ephemeral scalar 5
and the block-aligned plaintext `[7, 9]`: the final cipher block was written
past the body field, so the body holds only the first block. -/
def padCg : Cryptogram :=
  { keyField := [5], body := [23, 25], mac := [23] }

/-- The cryptogram `ecies_encrypt` produces for `toyCtx`, ephemeral scalar 5
and plaintext `[7]`. -/
def toyOkCg : Cryptogram :=
  { keyField := [5], body := [7], mac := [8] }

/-! Helper lemmas. -/

/-- One block of the spec-side KDF description, unfolded. -/
theorem kdfSpecBlocks_succ (digest : List Nat → List Nat) (Z sinfo : List Nat)
    (i n : Nat) :
    kdfSpecBlocks digest Z sinfo i (n + 1) =
      digest (Z ++ ctrBytes i ++ sinfo) ++ kdfSpecBlocks digest Z sinfo (i + 1) n := rfl

/-- Length of the spec-side block concatenation when the digest has fixed
output size. -/
theorem kdfSpecBlocks_length (digest : List Nat → List Nat) (mdlen : Nat)
    (Z sinfo : List Nat) (hd : ∀ s, (digest s).length = mdlen) :
    ∀ n i, (kdfSpecBlocks digest Z sinfo i n).length = n * mdlen := by
  intro n
  induction n with
  | zero => intro i; simp [kdfSpecBlocks]
  | succ n ih =>
    intro i
    rw [kdfSpecBlocks_succ, List.length_append, hd, ih]
    ring

/-- The digest loop of `ECDH_KDF_X9_62` computes exactly the spec-side block
concatenation truncated to `outlen` bytes, for any sufficient fuel. -/
theorem kdfLoop_eq_spec (digest : List Nat → List Nat) (mdlen : Nat)
    (Z sinfo : List Nat) (hm : 0 < mdlen) (hd : ∀ s, (digest s).length = mdlen) :
    ∀ fuel outlen i, outlen ≤ fuel →
      kdfLoop digest mdlen Z sinfo fuel outlen i =
        (kdfSpecBlocks digest Z sinfo i ((outlen + mdlen - 1) / mdlen)).take outlen := by
  intro fuel
  induction fuel with
  | zero =>
    intro outlen i h
    have h0 : outlen = 0 := Nat.le_zero.mp h
    subst h0
    have hdiv : (0 + mdlen - 1) / mdlen = 0 := Nat.div_eq_of_lt (by omega)
    rw [hdiv]
    rfl
  | succ fuel ih =>
    intro outlen i h
    show (if mdlen ≤ outlen then
            if outlen - mdlen = 0 then digest (Z ++ ctrBytes i ++ sinfo)
            else digest (Z ++ ctrBytes i ++ sinfo) ++
              kdfLoop digest mdlen Z sinfo fuel (outlen - mdlen) (i + 1)
          else (digest (Z ++ ctrBytes i ++ sinfo)).take outlen) = _
    by_cases h1 : mdlen ≤ outlen
    · by_cases h2 : outlen - mdlen = 0
      · have he : outlen = mdlen := by omega
        subst he
        have hrw : outlen + outlen - 1 = (outlen - 1) + outlen := by omega
        rw [if_pos h1, if_pos h2, hrw, Nat.add_div_right _ hm,
          Nat.div_eq_of_lt (by omega : outlen - 1 < outlen)]
        rw [kdfSpecBlocks_succ]
        show _ = (digest (Z ++ ctrBytes i ++ sinfo) ++ []).take outlen
        rw [List.append_nil, List.take_of_length_le (by rw [hd])]
      · have hlt : mdlen < outlen := by omega
        have hrw : outlen + mdlen - 1 = ((outlen - mdlen) + mdlen - 1) + mdlen := by omega
        rw [if_pos h1, if_neg h2, hrw, Nat.add_div_right _ hm, kdfSpecBlocks_succ,
          List.take_append_eq_append_take,
          List.take_of_length_le (by rw [hd]; exact h1), hd,
          ih (outlen - mdlen) (i + 1) (by omega)]
    · have hlt : outlen < mdlen := by omega
      rw [if_neg h1]
      by_cases h0 : outlen = 0
      · subst h0
        rw [Nat.div_eq_of_lt (by omega : 0 + mdlen - 1 < mdlen)]
        rfl
      · have hrw : outlen + mdlen - 1 = (outlen - 1) + mdlen := by omega
        rw [hrw, Nat.add_div_right _ hm,
          Nat.div_eq_of_lt (by omega : outlen - 1 < mdlen), kdfSpecBlocks_succ]
        show _ = (digest (Z ++ ctrBytes i ++ sinfo) ++ []).take outlen
        rw [List.append_nil]

/-- The ceiling block count covers `outlen` bytes. -/
theorem ceil_blocks_cover (mdlen outlen : Nat) (hm : 0 < mdlen) :
    outlen ≤ (outlen + mdlen - 1) / mdlen * mdlen := by
  have h1 := Nat.div_add_mod (outlen + mdlen - 1) mdlen
  have h2 : (outlen + mdlen - 1) % mdlen < mdlen := Nat.mod_lt _ hm
  rw [Nat.mul_comm]
  omega

/-- `memcmp` over a list against itself reports no difference. -/
theorem memcmpNe_self (a : List Nat) : memcmpNe a a = false := by
  induction a with
  | nil => rfl
  | cons x xs ih => simp [memcmpNe, ih]

/-- Over equal-length buffers, `memcmp` reports no difference exactly on
equal contents. -/
theorem memcmpNe_eq_false (a b : List Nat) (h : a.length = b.length)
    (hne : memcmpNe a b = false) : a = b := by
  induction a generalizing b with
  | nil =>
    cases b with
    | nil => rfl
    | cons y ys => simp at h
  | cons x xs ih =>
    cases b with
    | nil => simp at h
    | cons y ys =>
      simp only [memcmpNe] at hne
      by_cases hxy : x = y
      · subst hxy
        simp only [if_pos rfl] at hne
        simp only [List.length_cons, Nat.add_right_cancel_iff] at h
        rw [ih ys h hne]
      · rw [if_neg hxy] at hne
        exact absurd hne (by simp)

/-- Scanning skips over a run of events that are neither body decryptions
nor MAC verifications. -/
theorem noBDBV_append (t r : List Ev) (h : t.all notVerifyOrDecrypt = true) :
    noBodyDecryptBeforeVerify (t ++ r) = noBodyDecryptBeforeVerify r := by
  induction t with
  | nil => rfl
  | cons e t ih =>
    simp only [List.all_cons, Bool.and_eq_true] at h
    have h1 : e ≠ Ev.decryptBody := by
      intro he; subst he; simp [notVerifyOrDecrypt] at h
    have h2 : e ≠ Ev.macVerify true := by
      intro he; subst he; simp [notVerifyOrDecrypt] at h
    rw [List.cons_append]
    show (if e = Ev.decryptBody then false
          else if e = Ev.macVerify true then true
          else noBodyDecryptBeforeVerify (t ++ r)) = _
    rw [if_neg h1, if_neg h2, ih h.2]

/-- A trace without body decryptions or MAC verifications passes the scan. -/
theorem noBDBV_of_all (t : List Ev) (h : t.all notVerifyOrDecrypt = true) :
    noBodyDecryptBeforeVerify t = true := by
  have := noBDBV_append t [] h
  simpa using this

/-- The trace of `restore_envelope_key` contains no body decryption and no
MAC verification on any branch. -/
theorem restore_trace_safe {P : Type} (ctx : Ctx P) (env : DecEnv)
    (cg : Cryptogram) :
    ((restore_envelope_key ctx env cg).2).all notVerifyOrDecrypt = true := by
  simp only [restore_envelope_key]
  repeat' split
  all_goals rfl

/-- The trace of `restore_envelope_key` contains no envelope-key
zeroization on any branch. -/
theorem restore_trace_noCleanse {P : Type} (ctx : Ctx P) (env : DecEnv)
    (cg : Cryptogram) :
    ((restore_envelope_key ctx env cg).2).all notCleanseEnvKey = true := by
  simp only [restore_envelope_key]
  repeat' split
  all_goals rfl

/-- The trace of `prepare_envelope_key` contains no envelope-key
zeroization on any branch. -/
theorem prepare_trace_noCleanse {P : Type} (ctx : Ctx P) (env : EncEnv)
    (ephPriv : Nat) (cg : Cryptogram) :
    ((prepare_envelope_key ctx env ephPriv cg).2).all notCleanseEnvKey = true := by
  simp only [prepare_envelope_key]
  repeat' split
  all_goals rfl

/-- The trace of `store_cipher_body` contains no envelope-key zeroization on
any branch. -/
theorem store_trace_noCleanse (cm : CipherModel) (env : EncEnv)
    (ek data : List Nat) (cap : Nat) :
    ((store_cipher_body cm env ek data cap).trace).all notCleanseEnvKey = true := by
  simp only [store_cipher_body]
  repeat' split
  all_goals rfl

/-- No branch of `ecies_encrypt` ever zeroizes the envelope key. -/
theorem encrypt_trace_noCleanse {P : Type} (octx : Option (Ctx P)) (env : EncEnv)
    (ephPriv : Nat) (odata : Option (List Nat)) :
    ((ecies_encrypt octx env ephPriv odata).2).all notCleanseEnvKey = true := by
  cases octx with
  | none => rfl
  | some ctx =>
    cases odata with
    | none => rfl
    | some data =>
      simp only [ecies_encrypt]
      split
      · rfl
      split
      · rfl
      split
      · rfl
      split
      · rfl
      split
      · rename_i t heq
        have hp := prepare_trace_noCleanse ctx env ephPriv
          { keyField := List.replicate ctx.envelope_key_length 0,
            body := List.replicate (data.length +
              (if data.length % ctx.cipher.blockSize ≠ 0 then
                ctx.cipher.blockSize - data.length % ctx.cipher.blockSize else 0)) 0,
            mac := List.replicate ctx.mdSize 0 }
        rw [heq] at hp
        simp [List.all_append, hp, notCleanseEnvKey]
      · rename_i ek cg1 t heq
        have hp := prepare_trace_noCleanse ctx env ephPriv
          { keyField := List.replicate ctx.envelope_key_length 0,
            body := List.replicate (data.length +
              (if data.length % ctx.cipher.blockSize ≠ 0 then
                ctx.cipher.blockSize - data.length % ctx.cipher.blockSize else 0)) 0,
            mac := List.replicate ctx.mdSize 0 }
        rw [heq] at hp
        have hs := store_trace_noCleanse ctx.cipher env ek data cg1.body.length
        split
        · simp [List.all_append, hp, hs, notCleanseEnvKey]
        · split
          · simp [List.all_append, hp, notCleanseEnvKey]
          · simp [List.all_append, hp, notCleanseEnvKey]

/-- No branch of `ecies_decrypt` ever zeroizes the envelope key. -/
theorem decrypt_trace_noCleanse {P : Type} (octx : Option (Ctx P)) (env : DecEnv)
    (ocg : Option Cryptogram) :
    ((ecies_decrypt octx env ocg).2).all notCleanseEnvKey = true := by
  cases octx with
  | none => rfl
  | some ctx =>
    cases ocg with
    | none => rfl
    | some cg =>
      simp only [ecies_decrypt]
      split
      · rfl
      split
      · rfl
      split
      · rename_i t heq
        have hr := restore_trace_noCleanse ctx env cg
        rw [heq] at hr
        simpa using hr
      · rename_i ek t heq
        have hr := restore_trace_noCleanse ctx env cg
        rw [heq] at hr
        split
        · simp [List.all_append, hr, notCleanseEnvKey]
        · split
          · simp [List.all_append, hr, notCleanseEnvKey]
          · simp [List.all_append, hr, notCleanseEnvKey]

/-! Claim theorems. -/

/-- C2.  On every run of `ecies_decrypt` — any context, any cryptogram, any
pattern of external-call outcomes — no body decryption happens before a
successful MAC verification (trace scan), and whenever the MAC verification
fails, the body is never decrypted and the call returns the failure value. -/
theorem c2_verify_before_decrypt {P : Type} (octx : Option (Ctx P)) (env : DecEnv)
    (ocg : Option Cryptogram) :
    noBodyDecryptBeforeVerify (ecies_decrypt octx env ocg).2 = true
    ∧ (Ev.macVerify false ∈ (ecies_decrypt octx env ocg).2 →
        Ev.decryptBody ∉ (ecies_decrypt octx env ocg).2
        ∧ (ecies_decrypt octx env ocg).1 = DecResult.fail) := by
  cases octx with
  | none => exact ⟨rfl, fun h => absurd h (by simp [ecies_decrypt])⟩
  | some ctx =>
    cases ocg with
    | none => exact ⟨rfl, fun h => absurd h (by simp [ecies_decrypt])⟩
    | some cg =>
      simp only [ecies_decrypt]
      split_ifs with hp hk
      · exact ⟨rfl, fun h => absurd h (by simp)⟩
      · exact ⟨rfl, fun h => absurd h (by simp)⟩
      split
      · rename_i t heq
        have hsafe := restore_trace_safe ctx env cg
        rw [heq] at hsafe
        refine ⟨noBDBV_of_all t hsafe, fun hm => absurd hm ?_⟩
        intro hm2
        have := List.all_eq_true.mp hsafe _ hm2
        simp [notVerifyOrDecrypt] at this
      · rename_i ek t heq
        have hsafe := restore_trace_safe ctx env cg
        rw [heq] at hsafe
        have hsafe2 : t.all notVerifyOrDecrypt = true := hsafe
        have hmemD : Ev.decryptBody ∉ t := by
          intro hm
          have := List.all_eq_true.mp hsafe2 _ hm
          simp [notVerifyOrDecrypt] at this
        have hmemF : Ev.macVerify false ∉ t := by
          intro hm
          have := List.all_eq_true.mp hsafe2 _ hm
          simp [notVerifyOrDecrypt] at this
        split_ifs with hv
        · refine ⟨?_, fun _ => ⟨?_, rfl⟩⟩
          · rw [noBDBV_append t _ hsafe2]; rfl
          · intro hm
            rcases List.mem_append.mp hm with h | h
            · exact hmemD h
            · simp at h
        · split
          · refine ⟨?_, fun hm => absurd hm ?_⟩
            · rw [noBDBV_append t _ hsafe2]; rfl
            · intro hm
              rcases List.mem_append.mp hm with h | h
              · exact hmemF h
              · simp at h
          · refine ⟨?_, fun hm => absurd hm ?_⟩
            · rw [noBDBV_append t _ hsafe2]; rfl
            · intro hm
              rcases List.mem_append.mp hm with h | h
              · exact hmemF h
              · simp at h

/-- Witness for C2 at a concrete run: decrypting `cgBad` (whose tag is
wrong) under `padCtx` records a failed verification, never decrypts the
body, and fails. -/
theorem c2_verify_before_decrypt_witness :
    Ev.decryptBody ∉ (ecies_decrypt (some padCtx) allOkDecEnv (some cgBad)).2
    ∧ (ecies_decrypt (some padCtx) allOkDecEnv (some cgBad)).1 = DecResult.fail :=
  (c2_verify_before_decrypt (some padCtx) allOkDecEnv (some cgBad)).2 (by decide)

/-- C3.  A context whose cipher needs more key material than the KDF digest
length provides (`key_length * 2 > KDF_digest_length`, ecies.c lines 287 and
531) is rejected by both entry points with an empty event trace: no key
agreement, no cryptogram allocation and no envelope-key allocation is ever
attempted. -/
theorem c3_insufficient_kdf_rejected {P : Type} (ctx : Ctx P)
    (hk : ctx.cipher.keyLength * 2 > ctx.KDF_digest_length) :
    (∀ env ephPriv odata,
        ecies_encrypt (some ctx) env ephPriv odata = (EncResult.fail, []))
    ∧ ∀ env ocg, ecies_decrypt (some ctx) env ocg = (DecResult.fail, []) := by
  constructor
  · intro env ephPriv odata
    cases odata with
    | none => rfl
    | some data =>
      simp only [ecies_encrypt]
      split_ifs <;> rfl
  · intro env ocg
    cases ocg with
    | none => rfl
    | some cg =>
      simp only [ecies_decrypt]
      split_ifs <;> rfl

/-- Witness for C3 at the concrete context `badKdfCtx`
(`key_length * 2 = 4 > 1 = KDF_digest_length`). -/
theorem c3_insufficient_kdf_rejected_witness :
    ecies_encrypt (some badKdfCtx) allOkEncEnv 5 (some [1]) = (EncResult.fail, [])
    ∧ ecies_decrypt (some badKdfCtx) allOkDecEnv (some cgBad) = (DecResult.fail, []) :=
  ⟨(c3_insufficient_kdf_rejected badKdfCtx (by decide)).1 allOkEncEnv 5 (some [1]),
   (c3_insufficient_kdf_rejected badKdfCtx (by decide)).2 allOkDecEnv (some cgBad)⟩

/-- C5.  The stored tag is compared with `memcmp` (ecies.c line 467), a
byte-by-byte early-exit comparison, not a fixed-time one: two cryptograms
whose (equal-length) stored tags are both wrong are each rejected by
`verify_mac`, yet the number of byte comparisons `memcmp` performs on them
differs — 1 when the first tag byte already differs, 2 when only the second
does — so the comparison's work is correlated with the length of the
matching tag prefix. -/
theorem c5_tag_compare_not_fixed_time :
    verify_mac timingCtx allOkDecEnv { keyField := [5], body := [1], mac := [16, 24] } [9, 14] = false
    ∧ verify_mac timingCtx allOkDecEnv { keyField := [5], body := [1], mac := [15, 25] } [9, 14] = false
    ∧ memcmpSteps (timingCtx.hmac (([9, 14].drop 1).take 1) [1]) [16, 24] = 1
    ∧ memcmpSteps (timingCtx.hmac (([9, 14].drop 1).take 1) [1]) [15, 25] = 2 :=
  ⟨by decide, by decide, by decide, by decide⟩

/-- C7.  When the cipher's total output exceeds the body capacity — as for
any padding cipher on a block-aligned plaintext, where update emits `cap`
bytes and the final padding block another `blockSize` — `store_cipher_body`
reports success rather than rejecting the call (the `len_sum` compared at
ecies.c line 233 never includes the final block), and the cipher has already
written `blockSize` bytes past the body capacity. -/
theorem c7_cipher_overflow_not_prevented (cm : CipherModel) (env : EncEnv)
    (ek data : List Nat) (cap : Nat)
    (hI : env.encInitOk = true) (hF : env.encFinalOk = true)
    (hbs : 0 < cm.blockSize)
    (hu : (cm.encUpdate (ek.take cm.keyLength) data).length = cap)
    (hf : (cm.encFinal (ek.take cm.keyLength) data).length = cm.blockSize) :
    (store_cipher_body cm env ek data cap).ok = true
    ∧ cap < (store_cipher_body cm env ek data cap).writeEnd := by
  simp only [store_cipher_body, hI, hF]
  simp [hu, hf]
  omega

/-- Witness for C7: the toy padding cipher on the block-aligned plaintext
`[1, 2]` with body capacity 2 — accepted, having written up to offset 4. -/
theorem c7_cipher_overflow_not_prevented_witness :
    (store_cipher_body padCipher2 allOkEncEnv [16, 115] [1, 2] 2).ok = true
    ∧ 2 < (store_cipher_body padCipher2 allOkEncEnv [16, 115] [1, 2] 2).writeEnd :=
  c7_cipher_overflow_not_prevented padCipher2 allOkEncEnv [16, 115] [1, 2] 2
    rfl rfl (by decide) (by decide) (by decide)

/-- C9.  A null context is not rejected by `ecies_encrypt`: the initializers
of lines 270-272 read `ctx->cipher` and `ctx->md` before the `!ctx` test of
line 276 ever runs, so the call hits undefined behaviour (`ub` in the model)
instead of returning the failure value; a null plaintext pointer and a
zero-length plaintext, by contrast, are cleanly rejected with no resource
allocated (empty trace). -/
theorem c9_null_context_not_rejected :
    (∀ (P : Type) (env : EncEnv) (ephPriv : Nat) (odata : Option (List Nat)),
        @ecies_encrypt P none env ephPriv odata = (EncResult.ub, []))
    ∧ (∀ (P : Type) (ctx : Ctx P) (env : EncEnv) (ephPriv : Nat),
        ecies_encrypt (some ctx) env ephPriv none = (EncResult.fail, []))
    ∧ (∀ (P : Type) (ctx : Ctx P) (env : EncEnv) (ephPriv : Nat),
        ecies_encrypt (some ctx) env ephPriv (some []) = (EncResult.fail, [])) :=
  ⟨fun _ _ _ _ => rfl, fun _ _ _ _ => rfl, fun _ _ _ _ => rfl⟩

/-- C4.  For a digest of fixed positive output size `mdlen` and inputs
within the `ECDH_KDF_MAX` bounds, `ECDH_KDF_X9_62` succeeds and produces
exactly the spec-described output: the concatenation of
`digest(secret ‖ counter ‖ shared_info)` blocks with the 32-bit big-endian
counter starting at 1 and incremented once per block, truncated to exactly
`outlen` bytes.  Determinism is inherent here: the model is a pure function
of `(digest, Z, sinfo, outlen)`, so identical inputs give identical
output. -/
theorem c4_kdf_blocks_exact (digest : List Nat → List Nat) (mdlen : Nat)
    (Z sinfo : List Nat) (outlen : Nat)
    (hm : 0 < mdlen) (hd : ∀ s, (digest s).length = mdlen)
    (hZ : Z.length ≤ ECDH_KDF_MAX) (hs : sinfo.length ≤ ECDH_KDF_MAX)
    (ho : outlen ≤ ECDH_KDF_MAX) :
    ECDH_KDF_X9_62 digest mdlen Z sinfo outlen
      = some (kdfSpecOutput digest mdlen Z sinfo outlen)
    ∧ (kdfSpecOutput digest mdlen Z sinfo outlen).length = outlen := by
  constructor
  · rw [ECDH_KDF_X9_62, if_neg (by omega), kdfLoop_eq_spec digest mdlen Z sinfo hm hd
      (outlen + 1) outlen 1 (by omega)]
    rfl
  · rw [kdfSpecOutput, List.length_take,
      kdfSpecBlocks_length digest mdlen Z sinfo hd ((outlen + mdlen - 1) / mdlen) 1]
    exact Nat.min_eq_left (ceil_blocks_cover mdlen outlen hm)

/-- Witness for C4: the 2-byte toy digest, secret `[3]`, empty shared info
and output length 5 (two full blocks and one truncated). -/
theorem c4_kdf_blocks_exact_witness :
    ECDH_KDF_X9_62 toyDigest 2 [3] [] 5 = some (kdfSpecOutput toyDigest 2 [3] [] 5)
    ∧ (kdfSpecOutput toyDigest 2 [3] [] 5).length = 5 :=
  c4_kdf_blocks_exact toyDigest 2 [3] [] 5 (by decide) (fun s => rfl)
    (by decide) (by decide) (by decide)

/-- Inversion for a successful `prepare_envelope_key`: the returned envelope
key is the KDF of the ECDH secret between the ephemeral private key and the
recipient public key, and the cryptogram's key field holds the serialized
ephemeral public point. -/
theorem prepare_envelope_key_some {P : Type} {ctx : Ctx P} {env : EncEnv}
    {ephPriv : Nat} {cg : Cryptogram} {ek : List Nat} {cg' : Cryptogram} {t : List Ev}
    (h : prepare_envelope_key ctx env ephPriv cg = (some (ek, cg'), t)) :
    ECDH_KDF_X9_62 ctx.kdfDigest ctx.kdfMdLen
        (ctx.grp.xcoord (ctx.grp.smul ephPriv ctx.userPub)) [] ctx.KDF_digest_length
      = some ek
    ∧ cg'.keyField = ctx.grp.pointEnc (ctx.grp.smul ephPriv ctx.grp.gen) := by
  simp only [prepare_envelope_key] at h
  repeat' split at h
  all_goals injection h with h1 h2
  any_goals exact Option.noConfusion h1
  rename_i envkey heq _ _
  injection h1 with h1
  injection h1 with hek hcg
  subst hek
  exact ⟨heq, by rw [← hcg]⟩

/-- Inversion for a successful `restore_envelope_key`: the key field decoded
to a valid point `p` and the returned envelope key is the KDF of the ECDH
secret between the recipient private key and `p`. -/
theorem restore_envelope_key_some {P : Type} {ctx : Ctx P} {env : DecEnv}
    {cg : Cryptogram} {ek : List Nat} {t : List Ev}
    (h : restore_envelope_key ctx env cg = (some ek, t)) :
    ∃ p, ctx.grp.pointDec cg.keyField = some p
      ∧ ECDH_KDF_X9_62 ctx.kdfDigest ctx.kdfMdLen
          (ctx.grp.xcoord (ctx.grp.smul ctx.userPriv p)) [] ctx.KDF_digest_length
        = some ek := by
  simp only [restore_envelope_key] at h
  rcases hp : ctx.grp.pointDec cg.keyField with _ | p
  · simp only [hp] at h
    repeat' split at h
    all_goals injection h with h1 h2
    all_goals exact Option.noConfusion h1
  · simp only [hp] at h
    rcases hk : ECDH_KDF_X9_62 ctx.kdfDigest ctx.kdfMdLen
        (ctx.grp.xcoord (ctx.grp.smul ctx.userPriv p)) [] ctx.KDF_digest_length with _ | ekv
    · simp only [hk] at h
      repeat' split at h
      all_goals injection h with h1 h2
      all_goals exact Option.noConfusion h1
    · simp only [hk] at h
      repeat' split at h
      all_goals injection h with h1 h2
      any_goals exact Option.noConfusion h1
      injection h1 with hek
      subst hek
      exact ⟨p, rfl, hk⟩

/-- Forward run of `prepare_envelope_key` on the happy path: all external
calls succeed, the ECDH output has the expected length, the KDF succeeds and
the serialized point has the configured nonzero length. -/
theorem prepare_envelope_key_ok {P : Type} (ctx : Ctx P) (ephPriv : Nat)
    (cg : Cryptogram) (ek : List Nat)
    (hxlen : (ctx.grp.xcoord (ctx.grp.smul ephPriv ctx.userPub)).length
      = (ctx.groupDegree + 7) / 8)
    (hkdf : ECDH_KDF_X9_62 ctx.kdfDigest ctx.kdfMdLen
        (ctx.grp.xcoord (ctx.grp.smul ephPriv ctx.userPub)) [] ctx.KDF_digest_length
      = some ek)
    (hwlen : (ctx.grp.pointEnc (ctx.grp.smul ephPriv ctx.grp.gen)).length
      = ctx.envelope_key_length)
    (hnz : ctx.envelope_key_length ≠ 0) :
    prepare_envelope_key ctx allOkEncEnv ephPriv cg
      = (some (ek, { cg with keyField := ctx.grp.pointEnc (ctx.grp.smul ephPriv ctx.grp.gen) }),
         [Ev.allocEnvKey, Ev.allocKtmp, Ev.keyAgreement, Ev.cleanseKtmp, Ev.freeKtmp]) := by
  simp only [prepare_envelope_key, allOkEncEnv]
  rw [if_neg (by simp), if_neg (by simp), if_neg (by simp), if_neg (by simp [hxlen]), hkdf]
  dsimp only
  rw [if_neg (by rw [hwlen]; exact hnz), if_neg (by simp [hwlen])]

/-- Forward run of `restore_envelope_key` on the happy path. -/
theorem restore_envelope_key_ok {P : Type} (ctx : Ctx P) (cg : Cryptogram)
    (p : P) (ek : List Nat)
    (hp : ctx.grp.pointDec cg.keyField = some p)
    (hxlen : (ctx.grp.xcoord (ctx.grp.smul ctx.userPriv p)).length
      = (ctx.groupDegree + 7) / 8)
    (hkdf : ECDH_KDF_X9_62 ctx.kdfDigest ctx.kdfMdLen
        (ctx.grp.xcoord (ctx.grp.smul ctx.userPriv p)) [] ctx.KDF_digest_length
      = some ek) :
    restore_envelope_key ctx allOkDecEnv cg
      = (some ek, [Ev.allocEnvKey, Ev.allocKtmp, Ev.keyAgreement, Ev.cleanseKtmp, Ev.freeKtmp]) := by
  simp only [restore_envelope_key, allOkDecEnv]
  rw [if_neg (by simp), if_neg (by simp), hp]
  dsimp only
  rw [if_neg (by simp), if_neg (by simp [hxlen]), hkdf]

/-- The body field content when the cipher output fits the capacity
exactly. -/
theorem bodyFill_exact (u f : List Nat) (cap : Nat) (h : (u ++ f).length = cap) :
    bodyFill u f cap = u ++ f := by
  rw [bodyFill, ← h, List.take_length]
  simp

/-- Forward run of `store_cipher_body` on the happy path: the update output
fits the capacity (the two — identical — length checks of lines 216 and 233
pass). -/
theorem store_cipher_body_ok (cm : CipherModel) (ek data : List Nat) (cap : Nat)
    (hle : (cm.encUpdate (ek.take cm.keyLength) data).length ≤ cap) :
    store_cipher_body cm allOkEncEnv ek data cap =
      { ok := true,
        body := bodyFill (cm.encUpdate (ek.take cm.keyLength) data)
          (cm.encFinal (ek.take cm.keyLength) data) cap,
        writeEnd := (cm.encUpdate (ek.take cm.keyLength) data).length
          + (cm.encFinal (ek.take cm.keyLength) data).length,
        trace := [] } := by
  simp only [store_cipher_body, allOkEncEnv]
  rw [if_neg (by simp), if_neg (by omega), if_neg (by simp), if_neg (by omega)]

/-- Forward run of `store_mac_tag` on the happy path: the tag has the mac
field's length. -/
theorem store_mac_tag_ok {P : Type} (ctx : Ctx P) (ek : List Nat) (cg : Cryptogram)
    (hlen : (ctx.hmac ((ek.drop ctx.cipher.keyLength).take ctx.cipher.keyLength)
      cg.body).length = cg.mac.length) :
    store_mac_tag ctx allOkEncEnv ek cg =
      some { cg with
        mac := ctx.hmac ((ek.drop ctx.cipher.keyLength).take ctx.cipher.keyLength) cg.body } := by
  simp only [store_mac_tag, allOkEncEnv]
  rw [if_neg (by simp), if_neg (by simp [hlen])]

/-- `verify_mac` accepts when the recomputed tag equals the stored one. -/
theorem verify_mac_true {P : Type} (ctx : Ctx P) (cg : Cryptogram) (ek : List Nat)
    (heq : ctx.hmac ((ek.drop ctx.cipher.keyLength).take ctx.cipher.keyLength) cg.body
      = cg.mac) :
    verify_mac ctx allOkDecEnv cg ek = true := by
  simp only [verify_mac, allOkDecEnv]
  rw [if_neg (by simp), if_neg (by simp [heq]), if_neg (by simp [heq, memcmpNe_self])]

/-- `verify_mac` accepts a cryptogram whose mac field holds exactly the
recomputed tag. -/
theorem verify_mac_true_of_tag {P : Type} (ctx : Ctx P) (keyF body ek : List Nat) :
    verify_mac ctx allOkDecEnv
      { keyField := keyF, body := body,
        mac := ctx.hmac ((ek.drop ctx.cipher.keyLength).take ctx.cipher.keyLength) body }
      ek = true :=
  verify_mac_true ctx _ ek rfl

/-- Forward run of `decrypt_body` on the happy path. -/
theorem decrypt_body_ok {P : Type} (ctx : Ctx P) (cg : Cryptogram) (ek fb : List Nat)
    (hf : ctx.cipher.decFinal (ek.take ctx.cipher.keyLength) cg.body = some fb) :
    decrypt_body ctx allOkDecEnv cg ek =
      some (ctx.cipher.decUpdate (ek.take ctx.cipher.keyLength) cg.body ++ fb,
        (ctx.cipher.decUpdate (ek.take ctx.cipher.keyLength) cg.body).length + fb.length) := by
  simp only [decrypt_body, allOkDecEnv]
  rw [if_neg (by simp), if_neg (by simp), hf]

/-- Forward run of `ecies_encrypt` on the happy path.  The hypotheses are
the collaborator contracts: the ECDH output length, the KDF result `ek`, the
compressed-point length, the EVP output-length convention (update emits the
complete blocks, final emits one padded block — none for a stream cipher),
the HMAC output size, plus the context validity checks of the entry point
and the alignment condition `blockSize = 1 ∨ length % blockSize ≠ 0` under
which the cipher output exactly fills the allocated body. -/
theorem ecies_encrypt_ok {P : Type} (ctx : Ctx P) (ephPriv : Nat) (data ek : List Nat)
    (hxlen : (ctx.grp.xcoord (ctx.grp.smul ephPriv ctx.userPub)).length
      = (ctx.groupDegree + 7) / 8)
    (hkdf : ECDH_KDF_X9_62 ctx.kdfDigest ctx.kdfMdLen
        (ctx.grp.xcoord (ctx.grp.smul ephPriv ctx.userPub)) [] ctx.KDF_digest_length
      = some ek)
    (hwlen : (ctx.grp.pointEnc (ctx.grp.smul ephPriv ctx.grp.gen)).length
      = ctx.envelope_key_length)
    (hnz : ctx.envelope_key_length ≠ 0)
    (hbs : 0 < ctx.cipher.blockSize)
    (hbs32 : ctx.cipher.blockSize ≤ EVP_MAX_BLOCK_LENGTH)
    (hkl : ctx.cipher.keyLength * 2 ≤ ctx.KDF_digest_length)
    (hnil : data ≠ [])
    (hulen : (ctx.cipher.encUpdate (ek.take ctx.cipher.keyLength) data).length
      = data.length / ctx.cipher.blockSize * ctx.cipher.blockSize)
    (hflen : (ctx.cipher.encFinal (ek.take ctx.cipher.keyLength) data).length
      = if ctx.cipher.blockSize = 1 then 0 else ctx.cipher.blockSize)
    (halign : ctx.cipher.blockSize = 1 ∨ data.length % ctx.cipher.blockSize ≠ 0)
    (hmaclen : (ctx.hmac ((ek.drop ctx.cipher.keyLength).take ctx.cipher.keyLength)
        (ctx.cipher.encUpdate (ek.take ctx.cipher.keyLength) data
          ++ ctx.cipher.encFinal (ek.take ctx.cipher.keyLength) data)).length
      = ctx.mdSize) :
    ecies_encrypt (some ctx) allOkEncEnv ephPriv (some data) =
      (EncResult.ok
        { keyField := ctx.grp.pointEnc (ctx.grp.smul ephPriv ctx.grp.gen),
          body := ctx.cipher.encUpdate (ek.take ctx.cipher.keyLength) data
            ++ ctx.cipher.encFinal (ek.take ctx.cipher.keyLength) data,
          mac := ctx.hmac ((ek.drop ctx.cipher.keyLength).take ctx.cipher.keyLength)
            (ctx.cipher.encUpdate (ek.take ctx.cipher.keyLength) data
              ++ ctx.cipher.encFinal (ek.take ctx.cipher.keyLength) data) },
       [Ev.allocCryptogram, Ev.allocEnvKey, Ev.allocKtmp, Ev.keyAgreement,
        Ev.cleanseKtmp, Ev.freeKtmp]) := by
  have hdm := Nat.div_add_mod data.length ctx.cipher.blockSize
  have hmulc : data.length / ctx.cipher.blockSize * ctx.cipher.blockSize
      = ctx.cipher.blockSize * (data.length / ctx.cipher.blockSize) := Nat.mul_comm _ _
  have hcap : (ctx.cipher.encUpdate (ek.take ctx.cipher.keyLength) data).length
      + (ctx.cipher.encFinal (ek.take ctx.cipher.keyLength) data).length
      = data.length + (if data.length % ctx.cipher.blockSize ≠ 0 then
          ctx.cipher.blockSize - data.length % ctx.cipher.blockSize else 0) := by
    rcases halign with h1 | hr
    · rw [hulen, hflen, if_pos h1, h1]
      simp [Nat.mod_one]
    · have hbs1 : ctx.cipher.blockSize ≠ 1 := by
        intro h1
        rw [h1, Nat.mod_one] at hr
        exact hr rfl
      rw [hulen, hflen, if_neg hbs1, if_pos hr, hmulc]
      have hmlt : data.length % ctx.cipher.blockSize < ctx.cipher.blockSize :=
        Nat.mod_lt _ hbs
      omega
  simp only [ecies_encrypt]
  rw [if_neg (fun h => hnil (List.length_eq_zero.mp h)),
    if_neg (by simp only [not_or]; exact ⟨by omega, by omega⟩),
    if_neg (by omega), if_neg (by simp [allOkEncEnv])]
  rw [prepare_envelope_key_ok ctx ephPriv _ ek hxlen hkdf hwlen hnz]
  dsimp only
  rw [List.length_replicate]
  rw [store_cipher_body_ok ctx.cipher ek data _ (by omega)]
  dsimp only
  rw [bodyFill_exact _ _ _ (by rw [List.length_append]; exact hcap)]
  rw [store_mac_tag_ok ctx ek _ (by simpa using hmaclen)]
  rw [if_neg (by simp)]

/-- C1 (amended).  Round trip: for a valid context (recipient key pair on
the group, commuting scalar multiplication, round-tripping point codec,
matching ECDH/KDF/HMAC sizes, block size in range, sufficient KDF material)
and a nonempty plaintext whose length is NOT a multiple of the cipher block
size (or any nonempty plaintext when the block size is 1), encryption
produces a cryptogram and decrypting it with the same context returns
exactly the original plaintext with its original length.  The alignment
restriction is forced by `c1_round_trip_counterexample`: on block-aligned
input the final cipher block is written past the allocated body (never
detected, see C7), so the cryptogram's body is truncated and decryption
cannot return the plaintext. -/
theorem c1_round_trip_unaligned {P : Type} (ctx : Ctx P) (ephPriv : Nat)
    (data ek fb : List Nat)
    (hpub : ctx.userPub = ctx.grp.smul ctx.userPriv ctx.grp.gen)
    (hcomm : ctx.grp.smul ephPriv (ctx.grp.smul ctx.userPriv ctx.grp.gen)
      = ctx.grp.smul ctx.userPriv (ctx.grp.smul ephPriv ctx.grp.gen))
    (hdec : ctx.grp.pointDec (ctx.grp.pointEnc (ctx.grp.smul ephPriv ctx.grp.gen))
      = some (ctx.grp.smul ephPriv ctx.grp.gen))
    (hxlen : (ctx.grp.xcoord (ctx.grp.smul ephPriv ctx.userPub)).length
      = (ctx.groupDegree + 7) / 8)
    (hkdf : ECDH_KDF_X9_62 ctx.kdfDigest ctx.kdfMdLen
        (ctx.grp.xcoord (ctx.grp.smul ephPriv ctx.userPub)) [] ctx.KDF_digest_length
      = some ek)
    (hwlen : (ctx.grp.pointEnc (ctx.grp.smul ephPriv ctx.grp.gen)).length
      = ctx.envelope_key_length)
    (hnz : ctx.envelope_key_length ≠ 0)
    (hbs : 0 < ctx.cipher.blockSize)
    (hbs32 : ctx.cipher.blockSize ≤ EVP_MAX_BLOCK_LENGTH)
    (hkl : ctx.cipher.keyLength * 2 ≤ ctx.KDF_digest_length)
    (hnil : data ≠ [])
    (hulen : (ctx.cipher.encUpdate (ek.take ctx.cipher.keyLength) data).length
      = data.length / ctx.cipher.blockSize * ctx.cipher.blockSize)
    (hflen : (ctx.cipher.encFinal (ek.take ctx.cipher.keyLength) data).length
      = if ctx.cipher.blockSize = 1 then 0 else ctx.cipher.blockSize)
    (halign : ctx.cipher.blockSize = 1 ∨ data.length % ctx.cipher.blockSize ≠ 0)
    (hmaclen : (ctx.hmac ((ek.drop ctx.cipher.keyLength).take ctx.cipher.keyLength)
        (ctx.cipher.encUpdate (ek.take ctx.cipher.keyLength) data
          ++ ctx.cipher.encFinal (ek.take ctx.cipher.keyLength) data)).length
      = ctx.mdSize)
    (hfb : ctx.cipher.decFinal (ek.take ctx.cipher.keyLength)
        (ctx.cipher.encUpdate (ek.take ctx.cipher.keyLength) data
          ++ ctx.cipher.encFinal (ek.take ctx.cipher.keyLength) data) = some fb)
    (hcat : ctx.cipher.decUpdate (ek.take ctx.cipher.keyLength)
        (ctx.cipher.encUpdate (ek.take ctx.cipher.keyLength) data
          ++ ctx.cipher.encFinal (ek.take ctx.cipher.keyLength) data) ++ fb = data) :
    ∃ cg, (ecies_encrypt (some ctx) allOkEncEnv ephPriv (some data)).1 = EncResult.ok cg
      ∧ (ecies_decrypt (some ctx) allOkDecEnv (some cg)).1 = DecResult.ok data data.length := by
  have hE := ecies_encrypt_ok ctx ephPriv data ek hxlen hkdf hwlen hnz hbs hbs32 hkl
    hnil hulen hflen halign hmaclen
  have hpt : ctx.grp.smul ctx.userPriv (ctx.grp.smul ephPriv ctx.grp.gen)
      = ctx.grp.smul ephPriv ctx.userPub := by
    rw [hpub]; exact hcomm.symm
  have hlen2 : (ctx.cipher.decUpdate (ek.take ctx.cipher.keyLength)
      (ctx.cipher.encUpdate (ek.take ctx.cipher.keyLength) data
        ++ ctx.cipher.encFinal (ek.take ctx.cipher.keyLength) data)).length + fb.length
      = data.length := by
    rw [← List.length_append, hcat]
  refine ⟨_, by rw [hE], ?_⟩
  simp only [ecies_decrypt]
  rw [if_neg (by simp [allOkDecEnv]), if_neg (by omega)]
  rw [restore_envelope_key_ok ctx _ (ctx.grp.smul ephPriv ctx.grp.gen) ek hdec
    (by rw [hpt]; exact hxlen) (by rw [hpt]; exact hkdf)]
  dsimp only
  rw [if_neg (by simp [verify_mac_true_of_tag])]
  rw [decrypt_body_ok ctx _ ek fb hfb]
  dsimp only
  rw [hcat, hlen2]

/-- Counterexample to C1 as stated: with the toy padding block cipher
(block size 2) and the block-aligned 2-byte plaintext `[7, 9]`, encryption
does produce a cryptogram (`padCg`), but decrypting it fails (the body
field lost the final cipher block to the capacity overflow of C7, so the
padding check cannot succeed) — the round trip does not return the
plaintext. -/
theorem c1_round_trip_counterexample :
    (ecies_encrypt (some padCtx) allOkEncEnv 5 (some [7, 9])).1 = EncResult.ok padCg
    ∧ roundTrip padCtx allOkEncEnv allOkDecEnv 5 [7, 9] = DecResult.fail :=
  ⟨by decide, by decide⟩

/-- Witness for the amended C1: concrete toy run with the stream cipher and
plaintext `[7]` — encryption succeeds and decryption returns `[7]` with
length 1. -/
theorem c1_round_trip_unaligned_witness :
    ∃ cg, (ecies_encrypt (some toyCtx) allOkEncEnv 5 (some [7])).1 = EncResult.ok cg
      ∧ (ecies_decrypt (some toyCtx) allOkDecEnv (some cg)).1 = DecResult.ok [7] 1 :=
  c1_round_trip_unaligned toyCtx 5 [7] [16, 115] []
    (by decide) (by decide) (by decide) (by decide) (by decide) (by decide) (by decide)
    (by decide) (by decide) (by decide) (by decide) (by decide) (by decide) (by decide)
    (by decide) (by decide) (by decide)

/-- C8.  Envelope-key symmetry: when the recipient key pair is valid
(`userPub = userPriv · gen`), scalar multiplication commutes at these two
scalars (the group contract), and the point codec round-trips the ephemeral
public point, then any successful encrypt-path derivation and any successful
decrypt-path derivation reading the key field the encrypt path wrote produce
bit-identical envelope keys. -/
theorem c8_envelope_key_paths_agree {P : Type} (ctx : Ctx P) (eenv : EncEnv)
    (denv : DecEnv) (ephPriv : Nat) (cg0 cg1 : Cryptogram)
    (ekE ekD : List Nat) (t1 t2 : List Ev)
    (hpub : ctx.userPub = ctx.grp.smul ctx.userPriv ctx.grp.gen)
    (hcomm : ctx.grp.smul ephPriv (ctx.grp.smul ctx.userPriv ctx.grp.gen)
      = ctx.grp.smul ctx.userPriv (ctx.grp.smul ephPriv ctx.grp.gen))
    (hdec : ctx.grp.pointDec (ctx.grp.pointEnc (ctx.grp.smul ephPriv ctx.grp.gen))
      = some (ctx.grp.smul ephPriv ctx.grp.gen))
    (hE : prepare_envelope_key ctx eenv ephPriv cg0 = (some (ekE, cg1), t1))
    (hD : restore_envelope_key ctx denv cg1 = (some ekD, t2)) :
    ekD = ekE := by
  obtain ⟨hkdfE, hkey⟩ := prepare_envelope_key_some hE
  obtain ⟨p, hp, hkdfD⟩ := restore_envelope_key_some hD
  rw [hkey, hdec] at hp
  obtain rfl : ctx.grp.smul ephPriv ctx.grp.gen = p := by
    injection hp
  rw [← hcomm, ← hpub] at hkdfD
  rw [hkdfE] at hkdfD
  injection hkdfD with hkdfD
  exact hkdfD.symm

/-- Witness for C8: concrete toy run — prepare and restore both yield the
envelope key `[16, 115]`. -/
theorem c8_envelope_key_paths_agree_witness : ([16, 115] : List Nat) = [16, 115] :=
  c8_envelope_key_paths_agree toyCtx allOkEncEnv allOkDecEnv 5
    { keyField := [0], body := [0], mac := [0] }
    { keyField := [5], body := [0], mac := [0] }
    [16, 115] [16, 115]
    [Ev.allocEnvKey, Ev.allocKtmp, Ev.keyAgreement, Ev.cleanseKtmp, Ev.freeKtmp]
    [Ev.allocEnvKey, Ev.allocKtmp, Ev.keyAgreement, Ev.cleanseKtmp, Ev.freeKtmp]
    (by decide) (by decide) (by decide) (by decide) (by decide)

/-- C10.  In both the tag-computation path (`store_mac_tag`) and the
tag-verification path (`verify_mac`) the HMAC key is exactly the
`cipher_key_length` bytes of the envelope key starting at offset
`cipher_key_length`: the stored tag and the recomputed tag are both the HMAC
keyed by that slice, the slice's length equals the cipher key length (not
the MAC digest's natural key size and not the remainder of the KDF output),
and it consists of exactly the bytes `[key_length, 2·key_length)`. -/
theorem c10_hmac_key_slice {P : Type} (ctx : Ctx P) (eenv : EncEnv)
    (denv : DecEnv) (ek : List Nat) (cg cgv cg' : Cryptogram)
    (hlen : 2 * ctx.cipher.keyLength ≤ ek.length)
    (hs : store_mac_tag ctx eenv ek cg = some cg')
    (hv : verify_mac ctx denv cgv ek = true) :
    cg'.mac = ctx.hmac ((ek.drop ctx.cipher.keyLength).take ctx.cipher.keyLength) cg.body
    ∧ cgv.mac = ctx.hmac ((ek.drop ctx.cipher.keyLength).take ctx.cipher.keyLength) cgv.body
    ∧ ((ek.drop ctx.cipher.keyLength).take ctx.cipher.keyLength).length
        = ctx.cipher.keyLength
    ∧ (ek.drop ctx.cipher.keyLength).take ctx.cipher.keyLength
        = (ek.take (2 * ctx.cipher.keyLength)).drop ctx.cipher.keyLength := by
  refine ⟨?_, ?_, ?_, ?_⟩
  · simp only [store_mac_tag] at hs
    split_ifs at hs
    injection hs with hs
    rw [← hs]
  · simp only [verify_mac] at hv
    split_ifs at hv with h1 h2 h3
    have hmd : (ctx.hmac ((ek.drop ctx.cipher.keyLength).take ctx.cipher.keyLength)
        cgv.body).length = cgv.mac.length := by
      simpa using h2
    have h3' : memcmpNe
        ((ctx.hmac ((ek.drop ctx.cipher.keyLength).take ctx.cipher.keyLength)
          cgv.body).take cgv.mac.length)
        (cgv.mac.take cgv.mac.length) = false := by
      simpa using h3
    rw [List.take_length, List.take_of_length_le (le_of_eq hmd)] at h3'
    exact (memcmpNe_eq_false _ _ hmd h3').symm
  · rw [List.length_take, List.length_drop]
    omega
  · rw [List.drop_take]
    congr 1
    omega

/-- C6.  The envelope key is never zeroized: on every branch of both
`ecies_encrypt` and `ecies_decrypt` the trace contains no
`cleanseEnvKey` event (the C code has no `OPENSSL_cleanse(envelope_key, …)`
call at all), while concrete paths do release it — a decrypt run frees the
envelope key (uncleansed), and a successful encrypt run neither cleanses
nor even frees it (the buffer is leaked).  Only the ECDH secret `ktmp` is
cleansed, and even that is skipped on the point-serialization failure paths
of `prepare_envelope_key` (lines 158-169). -/
theorem c6_envelope_key_never_zeroized :
    (∀ (P : Type) (octx : Option (Ctx P)) (env : EncEnv) (ephPriv : Nat)
        (odata : Option (List Nat)),
      ((ecies_encrypt octx env ephPriv odata).2).all notCleanseEnvKey = true)
    ∧ (∀ (P : Type) (octx : Option (Ctx P)) (env : DecEnv) (ocg : Option Cryptogram),
      ((ecies_decrypt octx env ocg).2).all notCleanseEnvKey = true)
    ∧ ((ecies_decrypt (some padCtx) allOkDecEnv (some cgBad)).2).contains Ev.freeEnvKey = true
    ∧ ecies_encrypt (some toyCtx) allOkEncEnv 5 (some [7])
        = (EncResult.ok toyOkCg,
           [Ev.allocCryptogram, Ev.allocEnvKey, Ev.allocKtmp, Ev.keyAgreement,
            Ev.cleanseKtmp, Ev.freeKtmp])
    ∧ ((ecies_encrypt (some toyCtx) allOkEncEnv 5 (some [7])).2).all notFreeEnvKey = true :=
  ⟨fun _ octx env ephPriv odata => encrypt_trace_noCleanse octx env ephPriv odata,
   fun _ octx env ocg => decrypt_trace_noCleanse octx env ocg,
   by decide, by decide, by decide⟩

/-- Witness for C10: concrete toy run with cipher key length 1 and envelope
key `[16, 115]` — the HMAC key is the single byte `[115]` on both paths. -/
theorem c10_hmac_key_slice_witness :
    ({ keyField := [5], body := [1], mac := [232] } : Cryptogram).mac
      = padCtx.hmac (([16, 115].drop padCtx.cipher.keyLength).take padCtx.cipher.keyLength) [1]
    ∧ ({ keyField := [5], body := [1], mac := [232] } : Cryptogram).mac
      = padCtx.hmac (([16, 115].drop padCtx.cipher.keyLength).take padCtx.cipher.keyLength)
          ({ keyField := [5], body := [1], mac := [232] } : Cryptogram).body
    ∧ (([16, 115].drop padCtx.cipher.keyLength).take padCtx.cipher.keyLength).length
        = padCtx.cipher.keyLength
    ∧ ([16, 115].drop padCtx.cipher.keyLength).take padCtx.cipher.keyLength
        = ([16, 115].take (2 * padCtx.cipher.keyLength)).drop padCtx.cipher.keyLength :=
  c10_hmac_key_slice padCtx allOkEncEnv allOkDecEnv [16, 115]
    { keyField := [5], body := [1], mac := [0] }
    { keyField := [5], body := [1], mac := [232] }
    { keyField := [5], body := [1], mac := [232] }
    (by decide) (by decide) (by decide)

end ECIES
